import Mathlib

/-!
Verification of the probing-dl core against its specification.

The Rust sources are shallowly embedded: strings are Lean `String`s and the
byte-level operations of `str` (`starts_with`, `trim_start_matches`,
`to_lowercase`, slicing) are re-implemented over the character list
`String.data`; `BTreeMap` is a sorted association list; machine integers are
`Nat`/`Int` with explicit truncation modulo `2 ^ 64` where the code casts;
fallible operations return `Except`/`Option`; global mutable state is passed
explicitly.
-/

namespace Probing

/-- Decidable equality for `Except`, so that concrete runs of the embedded
operations can be checked by evaluation. -/
instance exceptDecEq {ε α : Type} [DecidableEq ε] [DecidableEq α] :
    DecidableEq (Except ε α) := fun
  | .ok a, .ok b =>
    if h : a = b then .isTrue (congrArg Except.ok h)
    else .isFalse (fun hc => h (Except.ok.inj hc))
  | .ok _, .error _ => .isFalse (fun hc => Except.noConfusion hc)
  | .error _, .ok _ => .isFalse (fun hc => Except.noConfusion hc)
  | .error a, .error b =>
    if h : a = b then .isTrue (congrArg Except.error h)
    else .isFalse (fun hc => h (Except.error.inj hc))

/-- Lexicographic strict order on character lists, the order Rust's `Ord` for
`String` induces (UTF-8 byte order agrees with scalar-value order). -/
def lexLt : List Char → List Char → Bool
  | [], [] => false
  | [], _ :: _ => true
  | _ :: _, [] => false
  | a :: as, b :: bs => if a < b then true else if b < a then false else lexLt as bs

/-- Rust `String` comparison `a < b`. -/
def strLt (a b : String) : Bool := lexLt a.data b.data

/-- Whether `p` is a prefix of `s` (character lists). -/
def isPre : List Char → List Char → Bool
  | [], _ => true
  | _ :: _, [] => false
  | p :: ps, c :: cs => if p = c then isPre ps cs else false

/-- Rust `s.starts_with(p)`. -/
def rstartsWith (s p : String) : Bool := isPre p.data s.data

/-- Rust `s.ends_with(p)`. -/
def rendsWith (s p : String) : Bool := isPre p.data.reverse s.data.reverse

/-- Strip one occurrence of the prefix `p` from `s`, if present. -/
def dropPre : List Char → List Char → Option (List Char)
  | [], s => some s
  | _ :: _, [] => none
  | p :: ps, c :: cs => if p = c then dropPre ps cs else none

/-- Fuelled kernel of Rust `str::trim_start_matches`: repeatedly strip the
pattern from the front while it is a (strictly shortening) prefix. -/
def trimStartFuel : Nat → List Char → List Char → List Char
  | 0, _, s => s
  | n + 1, p, s =>
    match dropPre p s with
    | some s' => if s'.length < s.length then trimStartFuel n p s' else s
    | none => s

/-- Rust `s.trim_start_matches(p)`. -/
def trimStartMatches (s p : String) : String :=
  ⟨trimStartFuel s.data.length p.data s.data⟩

/-- Rust `s.to_lowercase()` (extension names are ASCII). -/
def toLowerStr (s : String) : String := ⟨s.data.map Char.toLower⟩

/-! ## Element type (`probing-proto`, `dto/basic.rs` and `types/convert.rs`)

`F32`/`F64` carry the raw bit pattern; Rust renders both through the one
canonical float `Display` impl, which the embedding threads through as an
explicit formatting function so that both rendering paths visibly share it.
`DataTime` rendering through chrono's `to_rfc3339` is likewise threaded
through as an explicit formatting function. -/

/-- From `probing/proto/src/dto/basic.rs`: the tagged scalar `Ele`. -/
inductive Ele where
  | Nil : Ele
  | BOOL (b : Bool) : Ele
  | I32 (x : Int) : Ele
  | I64 (x : Int) : Ele
  | F32 (bits : Nat) : Ele
  | F64 (bits : Nat) : Ele
  | Text (s : String) : Ele
  | Url (s : String) : Ele
  | DataTime (t : Nat) : Ele
deriving DecidableEq, Repr

/-- Modelled from the spec: `probing/proto/src/types/error.rs` is not under
`src/`; the spec's error taxonomy names `WrongElementType` for an impossible
`FromEle` narrowing, and `types/convert.rs` uses exactly that constructor. -/
inductive ProtoError where
  | WrongElementType : ProtoError
deriving DecidableEq, Repr

/-- Rust's `Display` for `bool` as used by `format_args!` in
`impl Display for Ele`. -/
def fmtBool (b : Bool) : String := if b then "true" else "false"

/-- From `dto/basic.rs`, `impl Display for Ele`. `fmt32`/`fmt64` stand for
Rust's float `Display` on the carried bits, `rfc` for chrono's `to_rfc3339`
of the microsecond timestamp. -/
def eleDisplay (fmt32 fmt64 rfc : Nat → String) : Ele → String
  | .Nil => "nil"
  | .BOOL b => fmtBool b
  | .I32 x => toString x
  | .I64 x => toString x
  | .F32 bits => fmt32 bits
  | .F64 bits => fmt64 bits
  | .Text s => s
  | .Url s => s
  | .DataTime t => rfc t

/-- From `types/convert.rs`, `impl FromEle for String`. `DataTime` uses
`u64::to_string` (plain decimal), `BOOL` uses capitalised literals. -/
def stringFromEle (fmt32 fmt64 : Nat → String) : Ele → Except ProtoError String
  | .Text s => .ok s
  | .Url s => .ok s
  | .BOOL b => .ok (if b then "True" else "False")
  | .I32 x => .ok (toString x)
  | .I64 x => .ok (toString x)
  | .F32 bits => .ok (fmt32 bits)
  | .F64 bits => .ok (fmt64 bits)
  | .DataTime t => .ok (toString t)
  | .Nil => .ok "nil"

/-- From `types/convert.rs`, `EleExt::to_string_lossy`:
`String::from_ele(self).unwrap_or_else(|_| "unknown".to_string())`. -/
def toStringLossy (fmt32 fmt64 : Nat → String) (e : Ele) : String :=
  match stringFromEle fmt32 fmt64 e with
  | .ok s => s
  | .error _ => "unknown"

/-! ## Configuration store (`probing/core/src/config/store.rs`)

The global `BTreeMap<String, Ele>` is a sorted association list; `insert`
keeps it sorted and replaces an existing key. -/

/-- A `BTreeMap` as a key-sorted association list. -/
abbrev Store := List (String × Ele)

/-- `BTreeMap::insert` on the sorted association list. -/
def alInsert {α : Type} (k : String) (v : α) : List (String × α) → List (String × α)
  | [] => [(k, v)]
  | (k', v') :: rest =>
    if strLt k k' then (k, v) :: (k', v') :: rest
    else if k = k' then (k, v) :: rest
    else (k', v') :: alInsert k v rest

/-- `ConfigStore::get`. -/
def storeGet (st : Store) (k : String) : Option Ele :=
  (List.find? (fun kv => kv.1 = k) st).map (·.2)

/-- `ConfigStore::set` (an insert of the converted value). -/
def storeSet (st : Store) (k : String) (v : Ele) : Store := alInsert k v st

/-- From `store.rs`, `ConfigStore::get_with_prefix`: `range(prefix..)` on the
ordered map (drop the keys below the prefix) followed by
`take_while(starts_with prefix)`; collecting into a fresh `BTreeMap` of
already-sorted distinct keys returns them unchanged. -/
def getWithPfx (st : Store) (p : String) : Store :=
  (st.dropWhile (fun kv => strLt kv.1 p)).takeWhile (fun kv => rstartsWith kv.1 p)

/-- Sortedness invariant of the `BTreeMap` model. -/
def StoreSorted (st : Store) : Prop :=
  List.Pairwise (fun a b => strLt a.1 b.1 = true) st

/-! ## Extension registry (`probing/core/src/core/extension.rs`) -/

/-- Modelled from the spec: `probing/core/src/core/error.rs` is not under
`src/` (only its users are); the spec's §7 taxonomy gives the variants, and
the code in `src/` pattern-matches `UnsupportedOption`, `UnsupportedCall` and
`CallError`. -/
inductive EngineError where
  | unsupportedOption (key : String) : EngineError
  | readOnlyOption (key : String) : EngineError
  | invalidOptionValue (key value : String) : EngineError
  | unsupportedCall : EngineError
  | callError (path : String) : EngineError
  | pluginError (msg : String) : EngineError
deriving DecidableEq, Repr

/-- An engine extension as the manager observes it: its `name()` and its
`set`/`get` responses (`Result<String, EngineError>`). -/
structure Extension where
  name : String
  set : String → String → Except EngineError String
  get : String → Except EngineError String

/-- From `extension.rs`, `EngineExtensionManager::extract_namespace`:
lowercase the extension name, strip one trailing `"extension"` suffix, and
append `"."`. -/
def extractNamespace (extensionName : String) : String :=
  let lower := toLowerStr extensionName
  let base :=
    if rendsWith lower "extension" then
      (⟨lower.data.take (lower.data.length - 9)⟩ : String)
    else lower
  ⟨base.data ++ ['.']⟩

/-- The scan loop of `EngineExtensionManager::set_option` over the snapshot
of extensions (in the order the `BTreeMap` yields its values): skip an
extension whose derived namespace does not prefix the key; otherwise hand it
the key with the namespace trimmed from the front; on `Ok` stop, on
`UnsupportedOption` continue, on any other error stop with that error; when
the scan is exhausted, `UnsupportedOption(key)`. -/
def setOptionList (key value : String) : List Extension → Except EngineError Unit
  | [] => .error (.unsupportedOption key)
  | ext :: rest =>
    let ns := extractNamespace ext.name
    if rstartsWith key ns then
      match ext.set (trimStartMatches key ns) value with
      | .ok _ => .ok ()
      | .error (.unsupportedOption _) => setOptionList key value rest
      | .error e => .error e
    else setOptionList key value rest

/-- The scan loop of `EngineExtensionManager::get_option`: first extension
whose namespace prefixes the key and whose `get` of the trimmed key returns
`Ok` wins; every `Err` from an extension is skipped. -/
def getOptionList (key : String) : List Extension → Except EngineError String
  | [] => .error (.unsupportedOption key)
  | ext :: rest =>
    let ns := extractNamespace ext.name
    if rstartsWith key ns then
      match ext.get (trimStartMatches key ns) with
      | .ok v => .ok v
      | .error _ => getOptionList key rest
    else getOptionList key rest

/-- The global `EXTENSIONS` registry: a `BTreeMap` from registration name to
extension, built by a sequence of `register` calls. -/
def registryOf (regs : List (String × Extension)) : List (String × Extension) :=
  regs.foldl (fun acc nv => alInsert nv.1 nv.2 acc) []

/-- `EngineExtensionManager::set_option` as the code runs it: the snapshot is
`EXTENSIONS.values()`, i.e. the registry's values in ascending key order. -/
def mgrSetOption (registry : List (String × Extension)) (key value : String) :
    Except EngineError Unit :=
  setOptionList key value (registry.map (·.2))

/-- `EngineExtensionManager::get_option` over the registry snapshot. -/
def mgrGetOption (registry : List (String × Extension)) (key : String) :
    Except EngineError String :=
  getOptionList key (registry.map (·.2))

/-! ## Write-through configuration API (`probing/core/src/config.rs`) -/

/-- Modelled from the spec: the `Into<Ele>` injection for `&str` values is
not under `src/`; the spec's §4.1 total injection and §8 round-trip law store
a written string as `Ele::Text`. -/
def strToEle (value : String) : Ele := Ele.Text value

/-- From `config.rs`, `config::write`: keys starting with `"probing"` first
strip the first 8 bytes when the key starts with `"probing."` (`&key[8..]`)
and offer the stripped key to the extension manager (present in the session
state, as the engine builder installs it); `Ok` also writes the store under
the original key, `UnsupportedOption` falls through to a plain store write,
any other error is surfaced with the store untouched. Other keys are plain
store writes. -/
def writeCfg (exts : List Extension) (store : Store) (key value : String) :
    Except EngineError Store :=
  if rstartsWith key "probing" then
    let extensionKey : String :=
      if rstartsWith key "probing." then ⟨key.data.drop 8⟩ else key
    match setOptionList extensionKey value exts with
    | .ok _ => .ok (storeSet store key (strToEle value))
    | .error (.unsupportedOption _) => .ok (storeSet store key (strToEle value))
    | .error e => .error e
  else .ok (storeSet store key (strToEle value))

/-- The §4.7 pseudocode rendered with the spec's own words: strip the
optional `"probing."` prefix (rather than byte-slicing), then route
identically. Used to compare `writeCfg` against the specification. -/
def writeCfgSpec (exts : List Extension) (store : Store) (key value : String) :
    Except EngineError Store :=
  if rstartsWith key "probing" then
    let extensionKey : String :=
      match dropPre ("probing.").data key.data with
      | some r => ⟨r⟩
      | none => key
    match setOptionList extensionKey value exts with
    | .ok _ => .ok (storeSet store key (strToEle value))
    | .error (.unsupportedOption _) => .ok (storeSet store key (strToEle value))
    | .error e => .error e
  else .ok (storeSet store key (strToEle value))

/-! ## Tracing core (`probing/core/src/trace/span.rs`)

`Timestamp` is nanoseconds since the UNIX epoch as an unbounded `Nat`
(`u128` in the source; span timestamps stay far below `2 ^ 128`). The wall
clock and the thread id are explicit arguments where the code samples them. -/

/-- `Timestamp::now`: `SystemTime::duration_since(UNIX_EPOCH)` either yields
the elapsed nanoseconds or fails (clock before the epoch), in which case the
code falls back to `Timestamp(0)`. -/
def timestampNow (clock : Option Nat) : Nat :=
  match clock with
  | some d => d
  | none => 0

/-- `Timestamp::duration_since`: saturating subtraction whose positive branch
casts the `u128` difference to `u64` (`as u64` truncates modulo `2 ^ 64`). -/
def durationSince (t earlier : Nat) : Nat :=
  if earlier < t then (t - earlier) % 2 ^ 64 else 0

/-- `trace/mod.rs`: the tracing error type. -/
inductive TraceError where
  | SpanAlreadyClosed : TraceError
deriving DecidableEq, Repr

/-- `span.rs`: span attributes `Attribute(String, Ele)`. -/
structure Attribute where
  key : String
  value : Ele
deriving DecidableEq, Repr

/-- `span.rs`: span events. -/
structure Event where
  name : String
  location : Option String
  timestamp : Nat
  attributes : List Attribute
deriving DecidableEq, Repr

/-- `span.rs`: span status. -/
inductive SpanStatus where
  | Active : SpanStatus
  | Completed : SpanStatus
deriving DecidableEq, Repr

/-- `SpanStatus::from_end_time`. -/
def SpanStatus.fromEndTime (endTime : Option Nat) : SpanStatus :=
  if endTime.isSome then .Completed else .Active

/-- `span.rs`: the span record (the `end` field is `endTime` here, `end`
being reserved in Lean; `loc` keeps only the `UnknownLocation` payload the
constructors in scope ever build). -/
structure Span where
  trace_id : Nat
  span_id : Nat
  parent_id : Option Nat
  thread_id : Nat
  name : String
  start : Nat
  endTime : Option Nat
  kind : Option String
  loc : Option String
  attrs : List Attribute
  events : List Event
deriving DecidableEq, Repr

/-- The two atomic counters `NEXT_TRACE_ID` and `NEXT_SPAN_ID`. -/
structure Counters where
  nextTrace : Nat
  nextSpan : Nat
deriving DecidableEq, Repr

/-- `AtomicU64::new(1)` for both counters. -/
def initCounters : Counters := ⟨1, 1⟩

/-- `Span::new_root`: fetch-add both counters, capture the current thread id
and the clock. -/
def newRoot (c : Counters) (name : String) (kind loc : Option String)
    (tid now : Nat) : Span × Counters :=
  (⟨c.nextTrace, c.nextSpan, none, tid, name, now, none, kind, loc, [], []⟩,
   ⟨c.nextTrace + 1, c.nextSpan + 1⟩)

/-- `Span::new_child`: fetch-add the span counter only; inherit the parent's
`trace_id`, set `parent_id`, capture the current thread id. -/
def newChild (c : Counters) (parent : Span) (name : String)
    (kind loc : Option String) (tid now : Nat) : Span × Counters :=
  (⟨parent.trace_id, c.nextSpan, some parent.span_id, tid, name, now, none,
    kind, loc, [], []⟩,
   ⟨c.nextTrace, c.nextSpan + 1⟩)

/-- `Span::add_attr`: on an ended span fail with `SpanAlreadyClosed` and
leave the span as it was; otherwise push the attribute. The pair returns the
span after the call together with the error, mirroring `&mut self`. -/
def addAttr (s : Span) (k : String) (v : Ele) : Span × Option TraceError :=
  if s.endTime.isSome then (s, some .SpanAlreadyClosed)
  else ({ s with attrs := s.attrs ++ [⟨k, v⟩] }, none)

/-- `Span::add_event`: as `add_attr`, pushing an event stamped with the
clock; absent attributes default to the empty list. -/
def addEvent (s : Span) (name : String) (attributes : Option (List Attribute))
    (now : Nat) : Span × Option TraceError :=
  if s.endTime.isSome then (s, some .SpanAlreadyClosed)
  else ({ s with events := s.events ++ [⟨name, none, now, attributes.getD []⟩] },
        none)

/-- `Span::finish` (and its alias `end`): unconditionally set
`end = Some(now)`. -/
def finishSpan (s : Span) (now : Nat) : Span := { s with endTime := some now }

/-- `Span::status`. -/
def spanStatus (s : Span) : SpanStatus := SpanStatus.fromEndTime s.endTime

/-- `Span::duration`. -/
def spanDuration (s : Span) : Option Nat :=
  s.endTime.map (fun et => durationSince et s.start)

/-- `Span::is_ended`. -/
def isEnded (s : Span) : Bool := s.endTime.isSome

/-- A span-creation program: each step allocates a root span or a child of an
earlier span (by its position in creation order), on some thread at some
time. -/
inductive SpanOp where
  | rootOp (name : String) (tid now : Nat) : SpanOp
  | childOp (parentIdx : Nat) (name : String) (tid now : Nat) : SpanOp
deriving Repr

/-- Placeholder parent for an out-of-range parent index in a span program. -/
def dummySpan : Span := ⟨0, 0, none, 0, "", 0, none, none, none, [], []⟩

/-- Run a span-creation program, threading the counters and accumulating the
spans in creation order. -/
def runOps : List SpanOp → Counters → List Span → List Span × Counters
  | [], c, acc => (acc, c)
  | .rootOp n tid now :: rest, c, acc =>
    let rc := newRoot c n none none tid now
    runOps rest rc.2 (acc ++ [rc.1])
  | .childOp i n tid now :: rest, c, acc =>
    let parent := (acc.get? i).getD dummySpan
    let rc := newChild c parent n none none tid now
    runOps rest rc.2 (acc ++ [rc.1])

/-! ## Engine result assembly (`probing/core/src/core/engine.rs`)

`async_query` runs the SQL through DataFusion, `collect`s the record batches
and assembles the proto dataframe. The embedding starts at the collected
batches (the planner/executor is the external DataFusion runtime); a batch is
its schema's column names plus its columns, one homogeneous sequence each. -/

/-- `dto/basic.rs`: the columnar sequence `Seq` (float payloads as bits). -/
inductive Seq where
  | Nil : Seq
  | SeqBOOL (xs : List Bool) : Seq
  | SeqI32 (xs : List Int) : Seq
  | SeqI64 (xs : List Int) : Seq
  | SeqF32 (xs : List Nat) : Seq
  | SeqF64 (xs : List Nat) : Seq
  | SeqText (xs : List String) : Seq
  | SeqDateTime (xs : List Nat) : Seq
deriving DecidableEq, Repr

/-- `Seq::len`. -/
def Seq.len : Seq → Nat
  | .Nil => 0
  | .SeqBOOL xs => xs.length
  | .SeqI32 xs => xs.length
  | .SeqI64 xs => xs.length
  | .SeqF32 xs => xs.length
  | .SeqF64 xs => xs.length
  | .SeqText xs => xs.length
  | .SeqDateTime xs => xs.length

/-- A collected arrow record batch: field names and columns. -/
structure Batch where
  names : List String
  cols : List Seq
deriving DecidableEq, Repr

/-- The proto `DataFrame` the query surface returns. -/
structure DataFrameM where
  names : List String
  cols : List Seq
deriving DecidableEq, Repr

/-- Rows of a batch (arrow `num_rows`: the common column length). -/
def Batch.rows (b : Batch) : Nat := ((b.cols.head?).map Seq.len).getD 0

/-- Total rows across collected batches. -/
def totalRows (batches : List Batch) : Nat := (batches.map Batch.rows).sum

/-- Concatenate two same-variant columns (arrow `concat` per column). -/
def concatSeq : Seq → Seq → Option Seq
  | .Nil, .Nil => some .Nil
  | .SeqBOOL a, .SeqBOOL b => some (.SeqBOOL (a ++ b))
  | .SeqI32 a, .SeqI32 b => some (.SeqI32 (a ++ b))
  | .SeqI64 a, .SeqI64 b => some (.SeqI64 (a ++ b))
  | .SeqF32 a, .SeqF32 b => some (.SeqF32 (a ++ b))
  | .SeqF64 a, .SeqF64 b => some (.SeqF64 (a ++ b))
  | .SeqText a, .SeqText b => some (.SeqText (a ++ b))
  | .SeqDateTime a, .SeqDateTime b => some (.SeqDateTime (a ++ b))
  | _, _ => none

/-- Columnwise concatenation of equally long column lists. -/
def concatCols : List Seq → List Seq → Option (List Seq)
  | [], [] => some []
  | a :: as, b :: bs => do
    let c ← concatSeq a b
    let cs ← concatCols as bs
    pure (c :: cs)
  | _, _ => none

/-- `arrow::compute::concat_batches` of two batches under the first schema. -/
def concatBatch (a b : Batch) : Option Batch :=
  if a.names = b.names then (concatCols a.cols b.cols).map (fun cs => ⟨a.names, cs⟩)
  else none

/-- `concat_batches(&batches[0].schema(), batches.iter())`. -/
def concatAll (b : Batch) (rest : List Batch) : Option Batch :=
  rest.foldl (fun acc x => acc.bind (fun m => concatBatch m x)) (some b)

/-- From `engine.rs`, the tail of `Engine::async_query` after `collect`: an
empty batch list yields `Ok(None)`; otherwise the batches are concatenated
(a concat failure surfaces as the engine's error string) and the schema names
and converted columns form `Some(DataFrame)`. -/
def asyncQueryModel (batches : List Batch) : Except String (Option DataFrameM) :=
  match batches with
  | [] => .ok none
  | b :: rest =>
    match concatAll b rest with
    | some merged => .ok (some ⟨merged.names, merged.cols⟩)
    | none => .error "concat_batches failed"

/-! ## `Maybe` option parsing (`extension.rs`, `impl FromStr for Maybe<T>`) -/

/-- `extension.rs`: the `Maybe` option wrapper. -/
inductive Maybe (α : Type) where
  | Just (v : α) : Maybe α
  | Nothing : Maybe α
deriving DecidableEq, Repr

/-- From `extension.rs`, `impl FromStr for Maybe<T>` with error type
`Infallible` (here `Empty`): the empty string is `Nothing`, a failed parse of
`T` (the parser passed explicitly) is `Nothing`, a successful parse is
`Just`. -/
def maybeFromStr {α : Type} (parse : String → Option α) (s : String) :
    Except Empty (Maybe α) :=
  if s = "" then .ok .Nothing
  else
    match parse s with
    | some v => .ok (.Just v)
    | none => .ok .Nothing

/-! ## Specification-side descriptions and concrete fixtures -/

/-- Whether an extension's derived namespace prefixes the key (the dispatch
condition of §4.4). -/
def matchesKey (key : String) (e : Extension) : Bool :=
  rstartsWith key (extractNamespace e.name)

/-- The local key an extension receives for a global key. -/
def localKeyOf (key : String) (e : Extension) : String :=
  trimStartMatches key (extractNamespace e.name)

/-- The response of one extension to `set(local_key, value)`. -/
def respond (key value : String) (e : Extension) : Except EngineError String :=
  e.set (localKeyOf key e) value

/-- Declarative outcome of a dispatch scan: the first response that is not
`UnsupportedOption` decides; if none is decisive, `UnsupportedOption(key)`. -/
def firstDecisive (key : String) : List (Except EngineError String) → Except EngineError Unit
  | [] => .error (.unsupportedOption key)
  | .ok _ :: _ => .ok ()
  | .error (.unsupportedOption _) :: rest => firstDecisive key rest
  | .error e :: _ => .error e

/-- The claim's wording of `set_option`: scan the extensions in the order the
`register` calls happened, rather than in the order the `BTreeMap` yields
them. -/
def specRegistrationOrderScan (regs : List (String × Extension))
    (key value : String) : Except EngineError Unit :=
  setOptionList key value (regs.map (·.2))

/-- An extension named `"foo"` accepting every option. -/
def extFooOk : Extension :=
  ⟨"foo", fun _ _ => .ok "old", fun k => .error (.unsupportedOption k)⟩

/-- An extension named `"foo"` rejecting every option with a typed error. -/
def extFooReject : Extension :=
  ⟨"foo", fun k v => .error (.invalidOptionValue k v),
   fun k => .error (.unsupportedOption k)⟩

/-- Two extensions registered chronologically under `"z"` then `"a"`: the
`BTreeMap` yields them in the opposite order. -/
def cexRegistrations : List (String × Extension) :=
  [("z", extFooOk), ("a", extFooReject)]

/-- An extension named `"fooExtension"` (derived namespace `"foo."`) whose
`get` answers `Ok("x")` for every local key. -/
def extFooX : Extension :=
  ⟨"fooExtension",
   fun k _ => if k = "option" then .ok "default" else .error (.unsupportedOption k),
   fun _ => .ok "x"⟩

/-- One collected record batch with one `Int32` column and zero rows. -/
def emptyIdBatch : Batch := ⟨["id"], [Seq.SeqI32 []]⟩

/-- A trivial stand-in for the float and timestamp formatting oracles. -/
def zeroFmt : Nat → String := fun _ => ""

/-- A concrete active span used to instantiate lifecycle theorems. -/
def witnessSpan : Span := ⟨1, 1, none, 7, "work", 10, none, none, none, [], []⟩

/-- A small sorted store, as the `get_with_prefix` unit test populates it. -/
def demoStore : Store :=
  [("server.port", Ele.Text "8080"), ("torch.mode", Ele.Text "random"),
   ("torch.profiling", Ele.Text "on")]

/-- A concrete executable decimal parser used to instantiate `Maybe` parsing
theorems. -/
def parseNatSimple (s : String) : Option Nat :=
  if s ≠ "" ∧ s.data.all (fun c => c.isDigit) then
    some (s.data.foldl (fun acc c => acc * 10 + (c.toNat - 48)) 0)
  else none

/-! ## Lemmas about the string model -/

lemma lexLt_trans : ∀ {a b c : List Char},
    lexLt a b = true → lexLt b c = true → lexLt a c = true := by
  intro a
  induction a with
  | nil =>
    intro b c hab hbc
    cases c with
    | nil =>
      cases b with
      | nil => simp [lexLt] at hab
      | cons y ys => simp [lexLt] at hbc
    | cons z zs => simp [lexLt]
  | cons x xs ih =>
    intro b c hab hbc
    cases b with
    | nil => simp [lexLt] at hab
    | cons y ys =>
      cases c with
      | nil => simp [lexLt] at hbc
      | cons z zs =>
        simp only [lexLt] at hab hbc ⊢
        by_cases hxy : x < y
        · by_cases hyz : y < z
          · have hxz : x < z := lt_trans hxy hyz
            simp [hxz]
          · by_cases hzy : z < y
            · simp [hyz, hzy] at hbc
            · have hyz' : y = z := by
                rcases lt_trichotomy y z with h | h | h
                · exact absurd h hyz
                · exact h
                · exact absurd h hzy
              subst hyz'
              simp [hxy]
        · by_cases hyx : y < x
          · simp [hxy, hyx] at hab
          · have hxy' : x = y := by
              rcases lt_trichotomy x y with h | h | h
              · exact absurd h hxy
              · exact h
              · exact absurd h hyx
            subst hxy'
            simp only [hxy, if_neg hxy, lt_irrefl, if_neg (lt_irrefl x)] at hab
            by_cases hyz : x < z
            · simp [hyz]
            · by_cases hzy : z < x
              · simp [hyz, hzy] at hbc
              · have hyz' : x = z := by
                  rcases lt_trichotomy x z with h | h | h
                  · exact absurd h hyz
                  · exact h
                  · exact absurd h hzy
                subst hyz'
                simp only [lt_irrefl, if_neg (lt_irrefl x)] at hbc ⊢
                exact ih hab hbc

lemma lexLt_eq_of_not_both : ∀ {a b : List Char},
    lexLt a b = false → lexLt b a = false → a = b := by
  intro a
  induction a with
  | nil =>
    intro b hab _
    cases b with
    | nil => rfl
    | cons y ys => simp [lexLt] at hab
  | cons x xs ih =>
    intro b hab hba
    cases b with
    | nil => simp [lexLt] at hba
    | cons y ys =>
      simp only [lexLt] at hab hba
      by_cases hxy : x < y
      · simp [hxy] at hab
      · by_cases hyx : y < x
        · simp [lexLt, hyx] at hba
        · have hxy' : x = y := by
            rcases lt_trichotomy x y with h | h | h
            · exact absurd h hxy
            · exact h
            · exact absurd h hyx
          subst hxy'
          simp only [lt_irrefl, if_neg (lt_irrefl x)] at hab hba
          rw [ih hab hba]

lemma isPre_not_lexLt : ∀ {p s : List Char}, isPre p s = true → lexLt s p = false := by
  intro p
  induction p with
  | nil =>
    intro s _
    cases s with
    | nil => rfl
    | cons c cs => rfl
  | cons a ps ih =>
    intro s hp
    cases s with
    | nil => simp [isPre] at hp
    | cons c cs =>
      simp only [isPre] at hp
      by_cases hac : a = c
      · subst hac
        simp only [if_pos rfl] at hp
        simp only [lexLt, lt_irrefl, if_neg (lt_irrefl a)]
        exact ih hp
      · simp [hac] at hp

lemma isPre_down : ∀ {p k k' : List Char}, isPre p k' = true →
    lexLt k k' = true → lexLt k p = false → isPre p k = true := by
  intro p
  induction p with
  | nil => intro k k' _ _ _; rfl
  | cons a ps ih =>
    intro k k' hpre hlt hnlt
    cases k with
    | nil => simp [lexLt] at hnlt
    | cons c cs =>
      cases k' with
      | nil => simp [isPre] at hpre
      | cons d ds =>
        simp only [isPre] at hpre
        by_cases had : a = d
        · subst had
          simp only [if_pos rfl] at hpre
          by_cases hca : c < a
          · simp [lexLt, hca] at hnlt
          · by_cases hac : a < c
            · simp [lexLt, hac, lt_asymm hac] at hlt
            · have hc : a = c := by
                rcases lt_trichotomy a c with h | h | h
                · exact absurd h hac
                · exact h
                · exact absurd h hca
              subst hc
              simp only [lexLt, lt_irrefl, if_neg (lt_irrefl a)] at hlt hnlt
              simp only [isPre, if_pos rfl]
              exact ih hpre hlt hnlt
        · simp [had] at hpre

lemma isPre_mem : ∀ {p s : List Char}, isPre p s = true → ∀ c ∈ p, c ∈ s := by
  intro p
  induction p with
  | nil => intro s _ c hc; simp at hc
  | cons a ps ih =>
    intro s hp c hc
    cases s with
    | nil => simp [isPre] at hp
    | cons d ds =>
      simp only [isPre] at hp
      by_cases had : a = d
      · subst had
        simp only [if_pos rfl] at hp
        rcases List.mem_cons.mp hc with hc | hc
        · subst hc; exact List.mem_cons_self _ _
        · exact List.mem_cons_of_mem _ (ih hp c hc)
      · simp [had] at hp

lemma dropPre_append : ∀ {p s r : List Char}, dropPre p s = some r → s = p ++ r := by
  intro p
  induction p with
  | nil => intro s r h; cases h; rfl
  | cons a ps ih =>
    intro s r h
    cases s with
    | nil => simp [dropPre] at h
    | cons c cs =>
      simp only [dropPre] at h
      by_cases hac : a = c
      · subst hac
        simp only [if_pos rfl] at h
        simpa using ih h
      · simp [hac] at h

lemma isPre_dropPre : ∀ {p s : List Char}, isPre p s = true →
    ∃ r, dropPre p s = some r := by
  intro p
  induction p with
  | nil => intro s _; exact ⟨s, rfl⟩
  | cons a ps ih =>
    intro s hp
    cases s with
    | nil => simp [isPre] at hp
    | cons c cs =>
      simp only [isPre] at hp
      by_cases hac : a = c
      · subst hac
        simp only [if_pos rfl] at hp
        obtain ⟨r, hr⟩ := ih hp
        exact ⟨r, by simpa [dropPre] using hr⟩
      · simp [hac] at hp

lemma dropPre_isPre : ∀ {p s r : List Char}, dropPre p s = some r → isPre p s = true := by
  intro p s r h
  have hs := dropPre_append h
  subst hs
  clear h
  induction p with
  | nil => rfl
  | cons a ps ih => simpa [isPre] using ih

lemma strLt_trans {a b c : String} (h1 : strLt a b = true) (h2 : strLt b c = true) :
    strLt a c = true :=
  lexLt_trans h1 h2

lemma strLt_eq_of_not_both {a b : String} (h1 : strLt a b = false)
    (h2 : strLt b a = false) : a = b := by
  cases a with
  | mk da =>
    cases b with
    | mk db =>
      have : da = db := lexLt_eq_of_not_both h1 h2
      rw [this]

/-! ## Lemmas about the sorted map -/

lemma takeWhile_eq_filter_of_ge (p : String) :
    ∀ l : Store, (∀ kv ∈ l, lexLt kv.1.data p.data = false) →
      List.Pairwise (fun a b => strLt a.1 b.1 = true) l →
      l.takeWhile (fun kv => rstartsWith kv.1 p)
        = l.filter (fun kv => rstartsWith kv.1 p) := by
  intro l
  induction l with
  | nil => intro _ _; rfl
  | cons a l ih =>
    intro hge hpw
    rcases List.pairwise_cons.mp hpw with ⟨ha, hl⟩
    by_cases hsw : rstartsWith a.1 p = true
    · simp [List.takeWhile_cons, List.filter_cons, hsw,
        ih (fun kv hkv => hge kv (List.mem_cons_of_mem _ hkv)) hl]
    · have hswf : rstartsWith a.1 p = false := by
        cases hr : rstartsWith a.1 p
        · rfl
        · exact absurd hr hsw
      rw [List.takeWhile_cons, List.filter_cons, hswf]
      simp only [Bool.false_eq_true, if_false, cond_false]
      have hnil : l.filter (fun kv => rstartsWith kv.1 p) = [] := by
        rw [List.filter_eq_nil_iff]
        intro b hb
        intro hbtrue
        have hab : strLt a.1 b.1 = true := ha b hb
        have hge_a : lexLt a.1.data p.data = false := hge a (List.mem_cons_self _ _)
        have : isPre p.data a.1.data = true := isPre_down hbtrue hab hge_a
        exact absurd this (by simpa [rstartsWith] using hswf)
      rw [hnil]

lemma getWithPfx_filter_aux (p : String) :
    ∀ st : Store, StoreSorted st →
      getWithPfx st p = st.filter (fun kv => rstartsWith kv.1 p) := by
  intro st
  induction st with
  | nil => intro _; rfl
  | cons kv rest ih =>
    intro h
    rcases List.pairwise_cons.mp h with ⟨hall, hrest⟩
    by_cases hkp : strLt kv.1 p = true
    · have hswf : rstartsWith kv.1 p = false := by
        cases hr : rstartsWith kv.1 p
        · rfl
        · have : lexLt kv.1.data p.data = false :=
            isPre_not_lexLt (by simpa [rstartsWith] using hr)
          exact absurd hkp (by simp [strLt, this])
      rw [getWithPfx, List.dropWhile_cons, if_pos hkp, List.filter_cons, hswf]
      simp only [Bool.false_eq_true, if_false, cond_false]
      exact ih hrest
    · have hkpf : strLt kv.1 p = false := by
        cases hr : strLt kv.1 p
        · rfl
        · exact absurd hr hkp
      rw [getWithPfx, List.dropWhile_cons, if_neg (by simp [hkpf])]
      refine takeWhile_eq_filter_of_ge p (kv :: rest) ?_ h
      intro b hb
      rcases List.mem_cons.mp hb with hb | hb
      · subst hb; exact hkpf
      · cases hbp : lexLt b.1.data p.data
        · rfl
        · have h1 : strLt kv.1 b.1 = true := hall b hb
          have h2 : strLt kv.1 p = true := strLt_trans h1 hbp
          exact absurd h2 hkp

lemma alInsert_mem {α : Type} {x : String × α} {k : String} {v : α} :
    ∀ {l : List (String × α)}, x ∈ alInsert k v l → x = (k, v) ∨ x ∈ l := by
  intro l
  induction l with
  | nil => intro h; simpa [alInsert] using h
  | cons a l ih =>
    intro h
    rw [alInsert] at h
    by_cases h1 : strLt k a.1 = true
    · rw [if_pos h1] at h
      rcases List.mem_cons.mp h with h | h
      · exact Or.inl h
      · exact Or.inr h
    · rw [if_neg h1] at h
      by_cases h2 : k = a.1
      · rw [if_pos h2] at h
        rcases List.mem_cons.mp h with h | h
        · exact Or.inl h
        · exact Or.inr (List.mem_cons_of_mem _ h)
      · rw [if_neg h2] at h
        rcases List.mem_cons.mp h with h | h
        · exact Or.inr (by rw [h]; exact List.mem_cons_self _ _)
        · rcases ih h with h | h
          · exact Or.inl h
          · exact Or.inr (List.mem_cons_of_mem _ h)

lemma alInsert_sorted {α : Type} (k : String) (v : α) :
    ∀ l : List (String × α), List.Pairwise (fun a b => strLt a.1 b.1 = true) l →
      List.Pairwise (fun a b => strLt a.1 b.1 = true) (alInsert k v l) := by
  intro l
  induction l with
  | nil => intro _; simp [alInsert]
  | cons a l ih =>
    intro h
    rcases List.pairwise_cons.mp h with ⟨ha, hl⟩
    rw [alInsert]
    by_cases h1 : strLt k a.1 = true
    · rw [if_pos h1]
      refine List.pairwise_cons.mpr ⟨?_, h⟩
      intro b hb
      rcases List.mem_cons.mp hb with hb | hb
      · rw [hb]; exact h1
      · exact strLt_trans h1 (ha b hb)
    · rw [if_neg h1]
      by_cases h2 : k = a.1
      · rw [if_pos h2]
        refine List.pairwise_cons.mpr ⟨?_, hl⟩
        intro b hb
        rw [h2]
        exact ha b hb
      · rw [if_neg h2]
        refine List.pairwise_cons.mpr ⟨?_, ih hl⟩
        intro b hb
        rcases alInsert_mem hb with hb | hb
        · rw [hb]
          have h1f : strLt k a.1 = false := by
            cases hr : strLt k a.1
            · rfl
            · exact absurd hr h1
          cases hr : strLt a.1 k
          · exact absurd (strLt_eq_of_not_both h1f hr) h2
          · rfl
        · exact ha b hb

lemma storeGet_storeSet (k : String) (v : Ele) :
    ∀ st : Store, storeGet (storeSet st k v) k = some v := by
  intro st
  induction st with
  | nil => simp [storeSet, storeGet, alInsert, List.find?]
  | cons a rest ih =>
    rw [storeSet, alInsert]
    by_cases h1 : strLt k a.1 = true
    · rw [if_pos h1]
      simp [storeGet, List.find?]
    · rw [if_neg h1]
      by_cases h2 : k = a.1
      · rw [if_pos h2]
        simp [storeGet, List.find?]
      · rw [if_neg h2]
        have hne : (a.1 = k) = False := by
          simp only [eq_iff_iff, iff_false]
          intro hc
          exact h2 hc.symm
        simp only [storeGet, List.find?_cons, hne, decide_False]
        simpa [storeGet, storeSet] using ih

lemma extractNamespace_dot (n : String) : '.' ∈ (extractNamespace n).data := by
  rw [extractNamespace]
  simp

lemma startsWith_no_dot {key : String} (hk : '.' ∉ key.data) (n : String) :
    rstartsWith key (extractNamespace n) = false := by
  cases hr : rstartsWith key (extractNamespace n)
  · rfl
  · exact absurd
      (isPre_mem (by simpa [rstartsWith] using hr) '.' (extractNamespace_dot n)) hk

lemma setOptionList_no_dot {key : String} (hk : '.' ∉ key.data) (value : String) :
    ∀ exts : List Extension,
      setOptionList key value exts = .error (.unsupportedOption key) := by
  intro exts
  induction exts with
  | nil => rfl
  | cons e rest ih =>
    rw [setOptionList]
    simp only [startsWith_no_dot hk e.name, Bool.false_eq_true, if_false]
    exact ih

lemma getOptionList_no_dot {key : String} (hk : '.' ∉ key.data) :
    ∀ exts : List Extension,
      getOptionList key exts = .error (.unsupportedOption key) := by
  intro exts
  induction exts with
  | nil => rfl
  | cons e rest ih =>
    rw [getOptionList]
    simp only [startsWith_no_dot hk e.name, Bool.false_eq_true, if_false]
    exact ih

lemma setOptionList_eq_firstDecisive (key value : String) :
    ∀ exts : List Extension,
      setOptionList key value exts
        = firstDecisive key ((exts.filter (matchesKey key)).map (respond key value)) := by
  intro exts
  induction exts with
  | nil => rfl
  | cons e rest ih =>
    by_cases hm : matchesKey key e = true
    · have hm' : rstartsWith key (extractNamespace e.name) = true := hm
      rw [List.filter_cons, if_pos (by simpa using hm), List.map_cons]
      rw [setOptionList]
      simp only [hm', if_true]
      cases hres : e.set (trimStartMatches key (extractNamespace e.name)) value with
      | ok v =>
        have : respond key value e = .ok v := hres
        rw [this, firstDecisive]
      | error err =>
        have hre : respond key value e = .error err := hres
        cases err with
        | unsupportedOption k => rw [hre, firstDecisive]; exact ih
        | readOnlyOption k =>
          rw [hre, firstDecisive]
          exact fun _ hc => nomatch hc
        | invalidOptionValue k v =>
          rw [hre, firstDecisive]
          exact fun _ hc => nomatch hc
        | unsupportedCall =>
          rw [hre, firstDecisive]
          exact fun _ hc => nomatch hc
        | callError k =>
          rw [hre, firstDecisive]
          exact fun _ hc => nomatch hc
        | pluginError m =>
          rw [hre, firstDecisive]
          exact fun _ hc => nomatch hc
    · have hm' : rstartsWith key (extractNamespace e.name) = false := by
        cases hr : matchesKey key e
        · exact hr
        · exact absurd hr hm
      rw [List.filter_cons, if_neg (by simp [matchesKey, hm'])]
      rw [setOptionList]
      simp only [hm', Bool.false_eq_true, if_false]
      exact ih

lemma writeCfg_eq_spec (exts : List Extension) (store : Store) (key value : String) :
    writeCfg exts store key value = writeCfgSpec exts store key value := by
  rw [writeCfg, writeCfgSpec]
  by_cases h : rstartsWith key "probing" = true
  · simp only [h, if_true]
    by_cases h2 : rstartsWith key "probing." = true
    · obtain ⟨r, hr⟩ :=
        isPre_dropPre (show isPre ("probing.").data key.data = true from h2)
      have hk := dropPre_append hr
      have hdrop : key.data.drop 8 = r := by
        rw [hk]
        have : ("probing.").data.length = 8 := by decide
        rw [← this, List.drop_left]
      simp only [h2, if_true, hr, hdrop]
    · have h2f : rstartsWith key "probing." = false := by
        cases hr : rstartsWith key "probing."
        · rfl
        · exact absurd hr h2
      have hdp : dropPre ("probing.").data key.data = none := by
        cases hdp : dropPre ("probing.").data key.data with
        | none => rfl
        | some r => exact absurd (dropPre_isPre hdp) (by simp [rstartsWith] at h2f ⊢; exact h2f)
      simp only [h2f, Bool.false_eq_true, if_false, hdp]
  · have hf : rstartsWith key "probing" = false := by
      cases hr : rstartsWith key "probing"
      · rfl
      · exact absurd hr h
    simp only [hf, Bool.false_eq_true, if_false]

/-! ## Lemmas about span allocation -/

lemma runOps_inv :
    ∀ (ops : List SpanOp) (c : Counters) (acc : List Span),
      (∀ s ∈ acc, s.span_id < c.nextSpan) →
      (∀ s ∈ acc, s.trace_id < c.nextTrace) →
      1 ≤ c.nextSpan → 1 ≤ c.nextTrace →
      acc.Pairwise (fun a b => a.span_id < b.span_id) →
      (acc.filter (fun s => s.parent_id.isNone)).Pairwise
        (fun a b => a.trace_id < b.trace_id) →
      ((runOps ops c acc).1.Pairwise (fun a b => a.span_id < b.span_id)
        ∧ ((runOps ops c acc).1.filter (fun s => s.parent_id.isNone)).Pairwise
            (fun a b => a.trace_id < b.trace_id)) := by
  intro ops
  induction ops with
  | nil =>
    intro c acc _ _ _ _ h5 h6
    exact ⟨h5, h6⟩
  | cons op rest ih =>
    intro c acc h1 h2 h3 h4 h5 h6
    cases op with
    | rootOp n tid now =>
      rw [runOps]
      apply ih
      · intro s hs
        rcases List.mem_append.mp hs with hs | hs
        · exact Nat.lt_succ_of_lt (h1 s hs)
        · rw [List.mem_singleton.mp hs]
          exact Nat.lt_succ_self _
      · intro s hs
        rcases List.mem_append.mp hs with hs | hs
        · exact Nat.lt_succ_of_lt (h2 s hs)
        · rw [List.mem_singleton.mp hs]
          exact Nat.lt_succ_self _
      · exact Nat.le_succ_of_le h3
      · exact Nat.le_succ_of_le h4
      · refine List.pairwise_append.mpr ⟨h5, List.pairwise_singleton _ _, ?_⟩
        intro a ha b hb
        rw [List.mem_singleton.mp hb]
        exact h1 a ha
      · rw [List.filter_append]
        refine List.pairwise_append.mpr ⟨h6, ?_, ?_⟩
        · simp [newRoot, List.pairwise_singleton]
        · intro a ha b hb
          simp only [newRoot, List.filter_cons, Option.isNone_none, List.filter_nil,
            if_true, List.mem_singleton] at hb
          rw [hb]
          exact h2 a (List.mem_of_mem_filter ha)
    | childOp i n tid now =>
      rw [runOps]
      apply ih
      · intro s hs
        rcases List.mem_append.mp hs with hs | hs
        · exact Nat.lt_succ_of_lt (h1 s hs)
        · rw [List.mem_singleton.mp hs]
          exact Nat.lt_succ_self _
      · intro s hs
        rcases List.mem_append.mp hs with hs | hs
        · exact h2 s hs
        · rw [List.mem_singleton.mp hs]
          show ((acc.get? i).getD dummySpan).trace_id < c.nextTrace
          cases hgp : acc.get? i with
          | some pp => simpa using h2 pp (List.get?_mem hgp)
          | none => exact h4
      · exact Nat.le_succ_of_le h3
      · exact h4
      · refine List.pairwise_append.mpr ⟨h5, List.pairwise_singleton _ _, ?_⟩
        intro a ha b hb
        rw [List.mem_singleton.mp hb]
        exact h1 a ha
      · rw [List.filter_append]
        have hnil : (([(newChild c ((acc.get? i).getD dummySpan) n none none tid now).1]).filter
            (fun s => s.parent_id.isNone)) = [] := by
          simp [newChild]
        rw [hnil, List.append_nil]
        exact h6

lemma registryOf_sorted (regs : List (String × Extension)) :
    List.Pairwise (fun a b => strLt a.1 b.1 = true) (registryOf regs) := by
  rw [registryOf]
  have haux : ∀ (rs : List (String × Extension)) (acc : List (String × Extension)),
      List.Pairwise (fun a b => strLt a.1 b.1 = true) acc →
      List.Pairwise (fun a b => strLt a.1 b.1 = true)
        (rs.foldl (fun acc nv => alInsert nv.1 nv.2 acc) acc) := by
    intro rs
    induction rs with
    | nil => intro acc h; exact h
    | cons r rs ih =>
      intro acc h
      exact ih _ (alInsert_sorted r.1 r.2 acc h)
  exact haux regs [] List.Pairwise.nil

/-! ## Claim theorems -/

/-- C3. After `finish()` a span reports `is_ended() = true`, status
`Completed`, `duration() = Some(end - start)`, and any further `add_attr` or
`add_event` returns `SpanAlreadyClosed` returning the span unchanged;
conversely, while `end` is `None` the status is `Active`. -/
theorem span_lifecycle_after_finish (s : Span) (now : Nat) (k : String) (v : Ele)
    (en : String) (atts : Option (List Attribute)) (et : Nat)
    (h0 : s.endTime = none) (h1 : s.start ≤ now) (h2 : now - s.start < 2 ^ 64) :
    isEnded (finishSpan s now) = true
    ∧ spanStatus (finishSpan s now) = SpanStatus.Completed
    ∧ spanDuration (finishSpan s now) = some (now - s.start)
    ∧ addAttr (finishSpan s now) k v = (finishSpan s now, some TraceError.SpanAlreadyClosed)
    ∧ addEvent (finishSpan s now) en atts et
        = (finishSpan s now, some TraceError.SpanAlreadyClosed)
    ∧ spanStatus s = SpanStatus.Active := by
  have hd : durationSince now s.start = now - s.start := by
    rw [durationSince]
    by_cases hlt : s.start < now
    · rw [if_pos hlt]
      exact Nat.mod_eq_of_lt h2
    · rw [if_neg hlt]
      have hnow : now = s.start := le_antisymm (not_lt.mp hlt) h1
      rw [hnow, Nat.sub_self]
  refine ⟨rfl, rfl, ?_, ?_, ?_, ?_⟩
  · rw [spanDuration]
    show some (durationSince now s.start) = some (now - s.start)
    rw [hd]
  · simp [addAttr, finishSpan]
  · simp [addEvent, finishSpan]
  · rw [spanStatus, SpanStatus.fromEndTime, h0]
    rfl

/-- Witness for C3 at a concrete active span finished at time 15. -/
theorem span_lifecycle_after_finish_witness :
    spanDuration (finishSpan witnessSpan 15) = some 5
    ∧ addAttr (finishSpan witnessSpan 15) "late" Ele.Nil
        = (finishSpan witnessSpan 15, some TraceError.SpanAlreadyClosed)
    ∧ spanStatus witnessSpan = SpanStatus.Active := by
  have h := span_lifecycle_after_finish witnessSpan 15 "late" Ele.Nil "ev" none 16
    (by decide) (by decide) (by decide)
  exact ⟨h.2.2.1, h.2.2.2.1, h.2.2.2.2.2⟩

/-- C4 (amended). `finish()` unconditionally overwrites the end timestamp:
after repeated finish calls the span carries the timestamp of the last call
(last-write-wins), so it equals a single finish at that last time; a repeat
at the same instant leaves the span unchanged. -/
theorem finish_overwrites_end (s : Span) (t1 t2 : Nat) :
    finishSpan (finishSpan s t1) t2 = finishSpan s t2
    ∧ (finishSpan s t1).endTime = some t1
    ∧ finishSpan (finishSpan s t1) t1 = finishSpan s t1
    ∧ isEnded (finishSpan s t1) = true :=
  ⟨rfl, rfl, rfl, rfl⟩

/-- Counterexample to C4 as stated: finishing an already ended span moves its
end time, so the end field after the second call differs from the end field
after the first. -/
theorem finish_not_idempotent_cex :
    (finishSpan (finishSpan witnessSpan 5) 7).endTime
      ≠ (finishSpan witnessSpan 5).endTime := by
  decide

/-- C5. Along any span-creation program started at the initial counters,
span ids strictly increase in creation order and the trace ids of root spans
strictly increase; both counters start at 1, so the first root span gets
`trace_id = span_id = 1`; a child inherits its parent's `trace_id`, points
`parent_id` at the parent's `span_id`, draws a fresh `span_id` from the
counter, and records its own current thread id. -/
theorem span_ids_monotonic (ops : List SpanOp) (n : String) (kd ld : Option String)
    (tid now : Nat) (c : Counters) (p : Span) :
    (runOps ops initCounters []).1.Pairwise (fun a b => a.span_id < b.span_id)
    ∧ ((runOps ops initCounters []).1.filter (fun s => s.parent_id.isNone)).Pairwise
        (fun a b => a.trace_id < b.trace_id)
    ∧ (newRoot initCounters n kd ld tid now).1.span_id = 1
    ∧ (newRoot initCounters n kd ld tid now).1.trace_id = 1
    ∧ (newRoot c n kd ld tid now).2.nextSpan = c.nextSpan + 1
    ∧ (newRoot c n kd ld tid now).2.nextTrace = c.nextTrace + 1
    ∧ (newChild c p n kd ld tid now).1.trace_id = p.trace_id
    ∧ (newChild c p n kd ld tid now).1.parent_id = some p.span_id
    ∧ (newChild c p n kd ld tid now).1.span_id = c.nextSpan
    ∧ (newChild c p n kd ld tid now).2.nextSpan = c.nextSpan + 1
    ∧ (newChild c p n kd ld tid now).2.nextTrace = c.nextTrace
    ∧ (newChild c p n kd ld tid now).1.thread_id = tid := by
  have hinv := runOps_inv ops initCounters []
    (by intro s hs; cases hs) (by intro s hs; cases hs)
    (le_refl 1) (le_refl 1) List.Pairwise.nil (by simp)
  exact ⟨hinv.1, hinv.2, rfl, rfl, rfl, rfl, rfl, rfl, rfl, rfl, rfl, rfl⟩

/-- C10. `duration_since` saturates at zero when the callee's time does not
exceed the argument, `now()` falls back to 0 when the system clock reads
before the epoch, and every finished span reports `Some` duration. -/
theorem timestamp_saturates (t e : Nat) (h : t ≤ e) :
    durationSince t e = 0
    ∧ timestampNow none = 0
    ∧ (∀ d, timestampNow (some d) = d)
    ∧ (∀ (s : Span) (now : Nat),
        spanDuration (finishSpan s now) = some (durationSince now s.start))
    ∧ (∀ (s : Span) (now : Nat), isEnded (finishSpan s now) = true) := by
  refine ⟨?_, rfl, fun d => rfl, fun s now => rfl, fun s now => rfl⟩
  rw [durationSince, if_neg (not_lt.mpr h)]

/-- Witness for C10 at `t = 3 ≤ 5 = earlier`. -/
theorem timestamp_saturates_witness :
    durationSince 3 5 = 0 ∧ timestampNow none = 0 :=
  ⟨(timestamp_saturates 3 5 (by decide)).1, (timestamp_saturates 3 5 (by decide)).2.1⟩

/-- C2 (amended). `set_option` scans the snapshot the global `BTreeMap`
yields — the registry sorted by ascending registration name, not the
chronological registration order — and its outcome is the first decisive
response (first `Ok` or first error other than `UnsupportedOption`) among
the extensions whose derived namespace prefixes the key, each receiving the
key with the leading namespace occurrences trimmed; if no matching
extension is decisive the result is `UnsupportedOption(key)`. -/
theorem eem_set_option_lexorder (regs : List (String × Extension)) (key value : String) :
    mgrSetOption (registryOf regs) key value
      = firstDecisive key
          ((((registryOf regs).map (·.2)).filter (matchesKey key)).map (respond key value))
    ∧ List.Pairwise (fun a b => strLt a.1 b.1 = true) (registryOf regs) :=
  ⟨setOptionList_eq_firstDecisive key value _, registryOf_sorted regs⟩

/-- Counterexample to C2 as stated: with an accepting extension registered
first under name `"z"` and a rejecting one registered second under `"a"`
(both with namespace `"foo."`), a scan in registration order would succeed,
but the code iterates the `BTreeMap` in name order and surfaces the
rejection. -/
theorem eem_set_option_regorder_cex :
    mgrSetOption (registryOf cexRegistrations) "foo.x" "v"
      = .error (.invalidOptionValue "x" "v")
    ∧ specRegistrationOrderScan cexRegistrations "foo.x" "v" = .ok ()
    ∧ mgrSetOption (registryOf cexRegistrations) "foo.x" "v"
        ≠ specRegistrationOrderScan cexRegistrations "foo.x" "v" :=
  ⟨by decide, by decide, by decide⟩

/-- C1 (amended). `config::write` routes exactly as the spec's §4.7
pseudocode (the byte-slice `&key[8..]` coincides with stripping the optional
`"probing."` prefix); a successful `write("probing.foo", "x")` stores
`Text("x")` under the full key `"probing.foo"`; but the stripped key `"foo"`
contains no dot while every derived namespace ends in `"."`, so no extension
can ever claim it: `set_option("foo", ·)` always answers `UnsupportedOption`
(the write is store-only) and `get_option("foo")` returns
`Err(UnsupportedOption("foo"))`, not `Ok("x")`. -/
theorem config_write_routing (exts : List Extension) (store : Store) (value : String) :
    (∀ key v, writeCfg exts store key v = writeCfgSpec exts store key v)
    ∧ writeCfg exts store "probing.foo" "x"
        = .ok (storeSet store "probing.foo" (Ele.Text "x"))
    ∧ storeGet (storeSet store "probing.foo" (Ele.Text "x")) "probing.foo"
        = some (Ele.Text "x")
    ∧ getOptionList "foo" exts = .error (.unsupportedOption "foo")
    ∧ setOptionList "foo" value exts = .error (.unsupportedOption "foo") := by
  have hfoo : '.' ∉ ("foo" : String).data := by decide
  refine ⟨fun key v => writeCfg_eq_spec exts store key v, ?_, ?_, ?_, ?_⟩
  · have hset := setOptionList_no_dot hfoo "x" exts
    rw [writeCfg]
    have hc1 : rstartsWith "probing.foo" "probing" = true := by decide
    have hc2 : rstartsWith "probing.foo" "probing." = true := by decide
    have hkey : ((⟨("probing.foo").data.drop 8⟩ : String)) = "foo" := by decide
    simp only [hc1, hc2, if_true, hkey, hset]
    rfl
  · exact storeGet_storeSet "probing.foo" (Ele.Text "x") store
  · exact getOptionList_no_dot hfoo exts
  · exact setOptionList_no_dot hfoo value exts

/-- Counterexample to C1's final sentence: with the extension
`"fooExtension"` registered (namespace `"foo."`, `get` answering `Ok("x")`
for every local key), `write("probing.foo", "x")` succeeds and stores
`Text("x")`, yet `get_option("foo")` does not return `Ok("x")` — it fails
with `UnsupportedOption`. -/
theorem config_write_getopt_cex :
    writeCfg [extFooX] [] "probing.foo" "x" = .ok [("probing.foo", Ele.Text "x")]
    ∧ getOptionList "foo" [extFooX] = .error (.unsupportedOption "foo")
    ∧ getOptionList "foo" [extFooX] ≠ .ok "x" :=
  ⟨by decide, by decide, by decide⟩

/-- C6 (amended). After `collect`, `async_query` returns `Ok(None)` exactly
when the batch list is empty; a non-empty batch list never yields `None`,
even when its batches hold zero rows. -/
theorem async_query_none_iff_no_batches (batches : List Batch) :
    asyncQueryModel batches = .ok none ↔ batches = [] := by
  constructor
  · intro h
    cases batches with
    | nil => rfl
    | cons b rest =>
      rw [asyncQueryModel] at h
      cases hc : concatAll b rest with
      | some m =>
        rw [hc] at h
        cases h
      | none =>
        rw [hc] at h
        cases h
  · intro h
    rw [h]
    rfl

/-- Counterexample to C6 as stated: one collected batch with a zero-row
column is an empty result set, yet `async_query` returns a zero-row
dataframe rather than `None`. -/
theorem async_query_zero_rows_cex :
    totalRows [emptyIdBatch] = 0
    ∧ asyncQueryModel [emptyIdBatch] = .ok (some ⟨["id"], [Seq.SeqI32 []]⟩)
    ∧ asyncQueryModel [emptyIdBatch] ≠ .ok none :=
  ⟨by decide, by decide, by decide⟩

/-- C7 (amended). `to_string_lossy` is total — `String::from_ele` succeeds on
every variant, so the `"unknown"` fallback is unreachable — and agrees with
`Display` on `Nil`, `Text`, `Url`, `I32`, `I64`, `F32` and `F64` (the float
variants render through the one shared formatter); but `BOOL` renders as
`"True"`/`"False"` through `to_string_lossy` versus `"true"`/`"false"`
through `Display`, and `DataTime` renders as the decimal microsecond count
versus an RFC 3339 timestamp through `Display`. -/
theorem ele_lossy_vs_display (fmt32 fmt64 rfc : Nat → String) :
    (∀ e, stringFromEle fmt32 fmt64 e = .ok (toStringLossy fmt32 fmt64 e))
    ∧ toStringLossy fmt32 fmt64 .Nil = "nil"
    ∧ eleDisplay fmt32 fmt64 rfc .Nil = "nil"
    ∧ (∀ s, toStringLossy fmt32 fmt64 (.Text s) = eleDisplay fmt32 fmt64 rfc (.Text s))
    ∧ (∀ s, toStringLossy fmt32 fmt64 (.Url s) = eleDisplay fmt32 fmt64 rfc (.Url s))
    ∧ (∀ x, toStringLossy fmt32 fmt64 (.I32 x) = eleDisplay fmt32 fmt64 rfc (.I32 x))
    ∧ (∀ x, toStringLossy fmt32 fmt64 (.I64 x) = eleDisplay fmt32 fmt64 rfc (.I64 x))
    ∧ (∀ b, toStringLossy fmt32 fmt64 (.F32 b) = eleDisplay fmt32 fmt64 rfc (.F32 b))
    ∧ (∀ b, toStringLossy fmt32 fmt64 (.F64 b) = eleDisplay fmt32 fmt64 rfc (.F64 b))
    ∧ (∀ b, toStringLossy fmt32 fmt64 (.BOOL b) = (if b then "True" else "False"))
    ∧ (∀ b, eleDisplay fmt32 fmt64 rfc (.BOOL b) = (if b then "true" else "false"))
    ∧ (∀ t, toStringLossy fmt32 fmt64 (.DataTime t) = toString t)
    ∧ (∀ t, eleDisplay fmt32 fmt64 rfc (.DataTime t) = rfc t) := by
  refine ⟨fun e => ?_, rfl, rfl, fun s => rfl, fun s => rfl, fun x => rfl, fun x => rfl,
    fun b => rfl, fun b => rfl, fun b => ?_, fun b => ?_, fun t => rfl, fun t => rfl⟩
  · cases e <;> rfl
  · cases b <;> rfl
  · cases b <;> rfl

/-- Counterexample to C7 as stated: on `BOOL(true)` the `Display` rendering
is `"true"` while `to_string_lossy` gives `"True"`, so the two paths are not
identical. -/
theorem ele_display_bool_cex :
    eleDisplay zeroFmt zeroFmt zeroFmt (Ele.BOOL true) = "true"
    ∧ toStringLossy zeroFmt zeroFmt (Ele.BOOL true) = "True"
    ∧ toStringLossy zeroFmt zeroFmt (Ele.BOOL true)
        ≠ eleDisplay zeroFmt zeroFmt zeroFmt (Ele.BOOL true) :=
  ⟨rfl, rfl, by decide⟩

/-- C8. On a sorted store, `get_with_prefix(p)` returns exactly the entries
whose key starts with `p` — no entry with the prefix missed, none without it
included — and the result stays in lexicographic key order. -/
theorem store_scan_exact (st : Store) (p : String) (h : StoreSorted st) :
    getWithPfx st p = st.filter (fun kv => rstartsWith kv.1 p)
    ∧ StoreSorted (getWithPfx st p) := by
  have he := getWithPfx_filter_aux p st h
  refine ⟨he, ?_⟩
  rw [StoreSorted, he]
  exact List.Pairwise.sublist (List.filter_sublist st) h

/-- Witness for C8 on the three-entry store of the repository's unit test:
the `"torch."` scan returns exactly the two torch entries, in order. -/
theorem store_scan_exact_witness :
    getWithPfx demoStore "torch."
      = [("torch.mode", Ele.Text "random"), ("torch.profiling", Ele.Text "on")] := by
  have h := store_scan_exact demoStore "torch." (by
    rw [StoreSorted, demoStore]
    refine List.pairwise_cons.mpr ⟨?_, List.pairwise_cons.mpr ⟨?_, List.pairwise_singleton _ _⟩⟩
    · intro b hb
      rcases List.mem_cons.mp hb with hb | hb
      · rw [hb]; decide
      · rw [List.mem_singleton.mp hb]; decide
    · intro b hb
      rw [List.mem_singleton.mp hb]; decide)
  exact h.1.trans (by decide)

/-- C9. `Maybe::<T>::from_str` is total with error type `Infallible`: the
empty string yields `Nothing`, a string the inner parser rejects also yields
`Nothing` (indistinguishable from absent), and only a successfully parsed
non-empty string yields `Just`. -/
theorem maybe_from_str_total {α : Type} (parse : String → Option α) (s : String) (v : α)
    (hne : s ≠ "") :
    (∃ m, maybeFromStr parse s = .ok m)
    ∧ maybeFromStr parse "" = .ok .Nothing
    ∧ (parse s = none → maybeFromStr parse s = .ok .Nothing)
    ∧ (parse s = some v → maybeFromStr parse s = .ok (.Just v))
    ∧ (maybeFromStr parse s = .ok (.Just v) → parse s = some v)
    ∧ (parse s = none → maybeFromStr parse s = maybeFromStr parse "") := by
  rw [maybeFromStr, if_neg hne]
  refine ⟨?_, rfl, ?_, ?_, ?_, ?_⟩
  · cases hp : parse s
    · exact ⟨.Nothing, rfl⟩
    · exact ⟨.Just _, rfl⟩
  · intro hp
    rw [hp]
  · intro hp
    rw [hp]
  · intro hp
    cases hps : parse s with
    | none =>
      rw [hps] at hp
      cases hp
    | some w =>
      rw [hps] at hp
      cases hp
      rfl
  · intro hp
    rw [hp, maybeFromStr, if_pos rfl]

/-- Witness for C9 with a concrete decimal parser: `""` and the unparseable
`"4a2"` both give `Nothing`, `"42"` gives `Just 42`. -/
theorem maybe_from_str_total_witness :
    maybeFromStr parseNatSimple "" = .ok .Nothing
    ∧ maybeFromStr parseNatSimple "42" = .ok (.Just 42)
    ∧ maybeFromStr parseNatSimple "4a2" = .ok .Nothing :=
  ⟨(maybe_from_str_total parseNatSimple "42" 42 (by decide)).2.1,
   (maybe_from_str_total parseNatSimple "42" 42 (by decide)).2.2.2.1 (by decide),
   (maybe_from_str_total parseNatSimple "4a2" 0 (by decide)).2.2.1 (by decide)⟩

end Probing
